import Mathlib

/-!
Shallow embedding of the `fix_onetab` repository (two Python command-line
utilities: `src/extract_onetab.py`, the scanner, and `src/fix_onetab.py`,
the reconstructor) and proofs about the claims of its specification.

Modelling conventions:
* Python dicts decoded from JSON become Lean structures whose optional keys
  are `Option` fields; `d.get(key, default)` becomes `field.getD default`.
* Python lists become Lean `List`s; a Python dict used as an insertion-order
  preserving map (Python 3.7+) becomes an association list updated by
  `updateAssoc`, which appends a new key at the end and otherwise appends
  the value to the existing key's list in place.
* `time.time()` readings are modelled by an arbitrary clock `Nat → Nat`
  indexed by the number of `time.time()` calls made so far; `int(time.time()
  * 1000)` at call number `k` is `clock k`.
* File-system side effects are modelled as explicit traces of `FsOp`
  operations produced alongside the pure result.
* The external `strings` utility, the URL regular expression and the JSON
  parser are oracles: a scanned file is modelled by the list of successfully
  decoded `tabGroups` fragments and the list of raw URL matches it yields.
  The fragment oracle is constrained by the shape of the extraction regular
  expression at `extract_onetab.py` line 49: a decodable match contains no
  brace besides its outer pair, so a decoded fragment is a flat object whose
  values (`FlatVal`) hold no nested object anywhere.
-/

namespace OneTab

/-- A decoded tab entry inside a `tabGroups` JSON fragment: a dict that may
carry `url` and `title` keys (the scanner skips entries without `url`). -/
structure JTab where
  url : Option String
  title : Option String
deriving DecidableEq, Repr

/-- A decoded group inside a `tabGroups` JSON fragment: optional `name`,
and a `tabs` key that may be absent (the scanner skips groups without it). -/
structure JGroup where
  name : Option String
  tabs : Option (List JTab)
deriving DecidableEq, Repr

/-- A successfully decoded JSON fragment containing a `tabGroups` key
(`data` in `extract_onetab.py`, appended to the `tab_groups` list). -/
structure JDoc where
  tabGroups : List JGroup
deriving DecidableEq, Repr

/-- A merged scanner record: the dict
`{'url': ..., 'title': ..., 'group': ...}` built in `all_urls`
(`extract_onetab.py` lines 83-87 and 92-96); all three keys are present. -/
structure Record where
  url : String
  title : String
  group : String
deriving DecidableEq, Repr

/-- The group label attributed to a structurally decoded tab:
`group.get('name', 'Unnamed Group')` (`extract_onetab.py` line 86). -/
def scanGroupLabel (g : JGroup) : String :=
  g.name.getD "Unnamed Group"

/-- The dict-level view of the structural phase (`extract_onetab.py` lines
78-87): walk a fragment's `tabGroups`, skip groups without `tabs` and tabs
without `url`, and emit one record per remaining tab, titled with
`tab.get('title', '')` and grouped under `scanGroupLabel`. This view
exhibits the literal field defaults of lines 85-86 on dict-shaped group and
tab elements; `fragmentRecords` below is the same walk over arbitrary
decoded values, and `fragmentRecords_flat` shows that no decodable fragment
ever reaches the dict branches. -/
def structuralRecords (docs : List JDoc) : List Record :=
  docs.flatMap fun d =>
    d.tabGroups.flatMap fun g =>
      match g.tabs with
      | none => []
      | some tabs =>
          tabs.filterMap fun t =>
            t.url.map fun u =>
              { url := u, title := t.title.getD "", group := scanGroupLabel g }

/-- A decoded JSON value as `json.loads` can return it: a primitive (null,
boolean or number, carried as its literal text), a string, an array, or an
object given by its fields. The structural walk of lines 78-87 inspects
values of this type. Decoded dicts have pairwise-distinct keys, so field
lookup order is immaterial. -/
inductive JVal where
  | prim : String → JVal
  | str : String → JVal
  | arr : List JVal → JVal
  | obj : List (String × JVal) → JVal
deriving Repr

/-- A decoded JSON value that holds no object anywhere inside it: the only
shape a value inside a decodable fragment can take. The extraction regular
expression at `extract_onetab.py` line 49 matches a single `{`, then
characters without `{` up to the literal key, then characters without `}`
up to a single closing `}`; a match that `json.loads` accepts has balanced
braces, so its only braces are that outer pair and the decoded fragment's
values contain strings, numbers, booleans, null and (nested) arrays, but
never a nested object. -/
inductive FlatVal where
  | prim : String → FlatVal
  | str : String → FlatVal
  | arr : List FlatVal → FlatVal
deriving Repr

mutual

/-- The inclusion of brace-free decoded values into decoded values. -/
def FlatVal.toJVal : FlatVal → JVal
  | .prim s => .prim s
  | .str s => .str s
  | .arr es => .arr (toJValList es)

/-- Elementwise `FlatVal.toJVal` on a decoded array's elements. -/
def toJValList : List FlatVal → List JVal
  | [] => []
  | v :: vs => FlatVal.toJVal v :: toJValList vs

end

/-- A decodable fragment: the fields of a decoded flat object. -/
def fragToJVal (d : List (String × FlatVal)) : List (String × JVal) :=
  d.map fun p => (p.1, p.2.toJVal)

/-- Python key lookup `d.get(k)` on a decoded object's fields. -/
def lookupJ (fields : List (String × JVal)) (k : String) : Option JVal :=
  (fields.find? fun p => p.1 = k).map Prod.snd

/-- Python iteration over `d.get(key, [])` (lines 79 and 81): an absent key
iterates the empty default, an array iterates its elements, a string
iterates its one-character substrings, a dict iterates its keys — none of
the latter two ever yields a dict. A number, boolean or null is not
iterable: Python would raise an uncaught TypeError there; the model lets
such a value contribute no elements, which can only add records the
crashing run never produces and never removes any. -/
def iterElems (v : Option JVal) : List JVal :=
  match v with
  | some (.arr es) => es
  | some (.str s) => s.data.map fun c => JVal.str (String.mk [c])
  | some (.obj fields) => fields.map fun p => JVal.str p.1
  | _ => []

/-- The string a decoded value contributes to a record field. String values
keep their text and primitives their literal text; arrays and objects are
collapsed to placeholders — `fragmentRecords_flat` shows no decodable
fragment reaches a tab dict at all, so on reachable scanner inputs these
cases never arise. -/
def jText : JVal → String
  | .str s => s
  | .prim s => s
  | .arr _ => "<list>"
  | .obj _ => "<dict>"

/-- Lines 82-87 for one element of a group's `tabs` iteration: only a dict
with a `url` key yields a record, with `tab.get('title', '')` as title and
`group.get('name', 'Unnamed Group')` (looked up in the enclosing group's
fields `gf`) as group. -/
def tabRecordOf (gf : List (String × JVal)) (t : JVal) : List Record :=
  match t with
  | .obj tf =>
      match lookupJ tf "url" with
      | some uv =>
          [{ url := jText uv
           , title := ((lookupJ tf "title").map jText).getD ""
           , group := ((lookupJ gf "name").map jText).getD "Unnamed Group" }]
      | none => []
  | _ => []

/-- Lines 80-87 for one element of a fragment's `tabGroups` iteration:
`isinstance(group, dict) and 'tabs' in group` keeps only dicts carrying a
`tabs` key, whose `tabs` value is then iterated for tab records. -/
def groupRecordsOf (g : JVal) : List Record :=
  match g with
  | .obj gf =>
      if (lookupJ gf "tabs").isSome then
        (iterElems (lookupJ gf "tabs")).flatMap (tabRecordOf gf)
      else []
  | _ => []

/-- The structural phase of the merge (`extract_onetab.py` lines 78-87)
over decoded fragments: iterate each fragment's `tabGroups` value and
collect the group records, in order. -/
def fragmentRecords (docs : List (List (String × JVal))) : List Record :=
  docs.flatMap fun d => (iterElems (lookupJ d "tabGroups")).flatMap groupRecordsOf

/-- One step of the regex-URL dedup loop (`extract_onetab.py` lines 66-68):
append a URL to the accumulator only when it is not already present. -/
def addUrl (acc : List String) (u : String) : List String :=
  if u ∈ acc then acc else acc ++ [u]

/-- The per-run accumulation of regex URL matches across files
(`extract_onetab.py` lines 64-68): fold `addUrl` over every match. -/
def collectUrls (matchLists : List (List String)) : List String :=
  matchLists.foldl (fun acc ms => ms.foldl addUrl acc) []

/-- The merge of structural records with regex URLs (`extract_onetab.py`
lines 74-96): start from the structural records of the decoded fragments,
then append each regex URL as
`{'url': url, 'title': '', 'group': 'Unknown Group'}` unless some record
already in the list has that exact url string (lines 90-96). -/
def mergeUrls (docs : List (List (String × JVal))) (urls : List String) : List Record :=
  urls.foldl
    (fun acc u =>
      if u ∈ acc.map Record.url then acc
      else acc ++ [{ url := u, title := "", group := "Unknown Group" }])
    (fragmentRecords docs)

/-- What one examined storage file contributes after the external `strings`
run: the successfully decoded fragments (flat objects by the shape of the
line 49 extraction regular expression — see `FlatVal`) and the raw URL
regex matches found in its text content. -/
structure ScanFile where
  docs : List (List (String × FlatVal))
  urlMatches : List String
deriving Repr

/-- The merged `all_urls` list the scanner builds from a directory's files:
structural records of all decoded fragments merged with the deduplicated
regex URLs (`extract_onetab.py` lines 38-96). -/
def scanAllUrls (files : List ScanFile) : List Record :=
  mergeUrls ((files.flatMap ScanFile.docs).map fragToJVal)
    (collectUrls (files.map ScanFile.urlMatches))

/-- The value returned by `extract_onetab_data_from_files`: the early-exit
paths return a bare boolean (`return False`, lines 26 and 33), while the
normal paths return a pair (`return True, all_urls` / `return False, []`,
lines 117 and 120). -/
inductive ScanResult where
  | bare : Bool → ScanResult
  | pair : Bool → List Record → ScanResult
deriving DecidableEq, Repr

/-- Control flow of `extract_onetab_data_from_files` (`extract_onetab.py`
lines 10-120): missing directory → bare `False`; no `.ldb`/`.log` files →
bare `False`; otherwise merge, and return the pair `(True, all_urls)` when
non-empty, `(False, [])` when nothing was found. -/
def extract_onetab_data_from_files (dirExists : Bool) (files : List ScanFile) :
    ScanResult :=
  if !dirExists then .bare false
  else if files.isEmpty then .bare false
  else
    let all_urls := scanAllUrls files
    if all_urls.isEmpty then .pair false [] else .pair true all_urls

/-- The caller's tuple unpacking `success, urls = extract_onetab_data_from_files(...)`
(`extract_onetab.py` line 172): unpacking succeeds only on a pair; on a bare
boolean Python raises `TypeError: cannot unpack non-iterable bool`,
modelled as `none`. -/
def unpackScanResult : ScanResult → Option (Bool × List Record)
  | .bare _ => none
  | .pair b rs => some (b, rs)

/-- Insertion-order-preserving grouping map update, the Python 3.7+ dict
idiom `if k not in d: d[k] = []` followed by `d[k].append(v)`: a fresh key
goes to the end, an existing key has `v` appended to its list in place. -/
def updateAssoc {α : Type} (gs : List (String × List α)) (k : String) (v : α) :
    List (String × List α) :=
  match gs with
  | [] => [(k, [v])]
  | (k', vs) :: rest =>
      if k' = k then (k', vs ++ [v]) :: rest else (k', vs) :: updateAssoc rest k v

/-- First-seen-order list of distinct labels (the key order of a Python dict
filled left to right). -/
def firstSeen (labels : List String) : List String :=
  labels.foldl (fun acc g => if g ∈ acc then acc else acc ++ [g]) []

/-- Group a list by a label function into an insertion-ordered association
list, the shape that both `export_to_html`'s `groups` dict and
`fix_extension`'s `url_groups` dict take. -/
def groupByLabel {α : Type} (lab : α → String) (l : List α) :
    List (String × List α) :=
  l.foldl (fun gs e => updateAssoc gs (lab e) e) []

/-- A record as read back from JSON by the reconstructor (or fed to
`export_to_html`): a dict whose `url` key is required by use
(`entry['url']`) and whose `title` and `group` keys are optional. -/
structure RawRecord where
  url : String
  title : Option String
  group : Option String
deriving DecidableEq, Repr

/-- The group key `export_to_html` files an entry under:
`entry.get('group', 'Unknown Group')` (`extract_onetab.py` line 138). -/
def exLabel (e : RawRecord) : String :=
  e.group.getD "Unknown Group"

/-- The link text `export_to_html` shows for an entry
(`extract_onetab.py` lines 147-149): `entry.get('title', entry['url'])`,
then replaced by the url again when falsy (empty). -/
def displayTitle (e : RawRecord) : String :=
  let t := e.title.getD e.url
  if t = "" then e.url else t

/-- One emitted piece of the bookmarks HTML body: a `<DT><H3>` group heading
or a `<DT><A HREF=...>` link entry. -/
inductive HtmlItem where
  | heading : String → HtmlItem
  | link : String → String → HtmlItem
deriving DecidableEq, Repr

/-- Body of the HTML document built by `export_to_html` (`extract_onetab.py`
lines 135-151): group the entries by `exLabel` into the insertion-ordered
`groups` dict, then emit, per group in dict order, its heading followed by
one link per entry in list order. -/
def export_to_html (entries : List RawRecord) : List HtmlItem :=
  (groupByLabel exLabel entries).flatMap fun p =>
    HtmlItem.heading p.1 :: p.2.map fun e => HtmlItem.link e.url (displayTitle e)

/-- Whether an HTML item is a link entry. -/
def isLink : HtmlItem → Bool
  | .link _ _ => true
  | .heading _ => false

/-- A reconstructed tab `{'id': ..., 'url': ..., 'title': ...}`
(`fix_onetab.py` lines 59-63). -/
structure Tab where
  id : String
  url : String
  title : String
deriving DecidableEq, Repr

/-- A reconstructed tab group `{'id': ..., 'name': ..., 'tabs': ...}`
(`fix_onetab.py` lines 72-76). -/
structure TabGroup where
  id : String
  name : String
  tabs : List Tab
deriving DecidableEq, Repr

/-- The reconstructed state document `{'tabGroups': [...]}`
(`fix_onetab.py` lines 66-68). -/
structure StateDoc where
  tabGroups : List TabGroup
deriving DecidableEq, Repr

/-- The group key `fix_extension` files a loaded record under:
`entry.get('group', 'Unnamed Group')` (`fix_onetab.py` line 56). -/
def recLabel (e : RawRecord) : String :=
  e.group.getD "Unnamed Group"

/-- The tab dict `fix_extension` synthesizes for a loaded record
(`fix_onetab.py` lines 59-63): id from the `k`-th `time.time()` reading and
the entry's index `idx` within its group (`len` before append), title from
`entry.get('title', entry['url'])`. -/
def mkTab (clock : Nat → Nat) (k idx : Nat) (e : RawRecord) : Tab :=
  { id := "tab_" ++ toString (clock k) ++ "_" ++ toString idx
  , url := e.url
  , title := e.title.getD e.url }

/-- The `url_groups` building loop of `fix_extension` (`fix_onetab.py`
lines 54-63): fold the loaded records into the insertion-ordered dict,
synthesizing each tab with one `time.time()` reading; `k` counts the
readings consumed so far. Returns the dict and the next reading index. -/
def buildUrlGroups (clock : Nat → Nat) (k0 : Nat) (recs : List RawRecord) :
    List (String × List Tab) × Nat :=
  recs.foldl
    (fun st e =>
      let gname := recLabel e
      let idx := (((st.1.find? fun p => p.1 = gname).map fun p => p.2.length).getD 0)
      (updateAssoc st.1 gname (mkTab clock st.2 idx e), st.2 + 1))
    ([], k0)

/-- The `tabGroups` building loop of `fix_extension` (`fix_onetab.py`
lines 70-78): walk the `url_groups` dict in order, synthesizing per group an
id from one `time.time()` reading and the count `idx` of groups appended so
far, renaming the placeholder group `"Unknown Group"` to `""`. -/
def mkGroups (clock : Nat → Nat) : Nat → Nat → List (String × List Tab) → List TabGroup
  | _, _, [] => []
  | k, idx, (gname, tabs) :: rest =>
      { id := "group_" ++ toString (clock k) ++ "_" ++ toString idx
      , name := if gname = "Unknown Group" then "" else gname
      , tabs := tabs } :: mkGroups clock (k + 1) (idx + 1) rest

/-- The state document a run of `fix_extension` assembles from the loaded
records (`fix_onetab.py` lines 52-78): the tab loop consumes one clock
reading per record, then the group loop consumes one per group. -/
def fixDoc (clock : Nat → Nat) (recs : List RawRecord) : StateDoc :=
  { tabGroups :=
      mkGroups clock (buildUrlGroups clock 0 recs).2 0 (buildUrlGroups clock 0 recs).1 }

/-- All synthesized `id` strings of a state document, group ids and tab ids
together, in document order. -/
def allIds (doc : StateDoc) : List String :=
  doc.tabGroups.flatMap fun g => g.id :: g.tabs.map Tab.id

/-- Boolean character-list prefix test (`a == b` chained), used to model
Python's `str.endswith` on reversed character lists. -/
def isPrefChars : List Char → List Char → Bool
  | [], _ => true
  | _ :: _, [] => false
  | a :: as, b :: bs => a = b && isPrefChars as bs

/-- Python's `s.endswith(suf)`: `suf` read backwards is a prefix of `s`
read backwards. -/
def strEndsWith (s suf : String) : Bool :=
  isPrefChars suf.data.reverse s.data.reverse

/-- A file-system side effect of the reconstructor. -/
inductive FsOp where
  | mkdirOp : String → FsOp
  | copyOp : String → String → FsOp
  | removeOp : String → FsOp
  | writeOp : String → FsOp
deriving DecidableEq, Repr

/-- Whether a file-system operation deletes or overwrites a file (directory
creation and copying a file into the fresh backup directory do not). -/
def mutatesFile : FsOp → Bool
  | .removeOp _ => true
  | .writeOp _ => true
  | _ => false

/-- The environment a reconstructor run sees: whether the extension storage
directory exists and which regular files it holds (in listing order),
whether the backup directory already exists, whether the records JSON file
exists, and the outcome of parsing it (`none` = malformed JSON). -/
structure Env where
  extensionExists : Bool
  extensionFiles : List String
  backupDirExists : Bool
  urlsJsonExists : Bool
  urlsData : Option (List RawRecord)
deriving Repr

/-- Side-effect trace of `backup_extension_data` (`fix_onetab.py` lines
11-31): create the backup dir if missing, create the timestamped backup
path, then copy every regular file of the extension directory into it
(nothing is copied when the extension path does not exist). It deletes and
overwrites nothing in the extension directory. -/
def backup_extension_data (env : Env) (backupDir backupPath : String) :
    List FsOp :=
  (if env.backupDirExists then [] else [FsOp.mkdirOp backupDir]) ++
    [FsOp.mkdirOp backupPath] ++
    (if env.extensionExists then
        env.extensionFiles.map fun f => FsOp.copyOp f backupPath
      else [])

/-- The files `fix_extension` removes in destructive mode (`fix_onetab.py`
lines 86-93): every file matching `*.ldb`, then every file matching `*.log`
whose path string does not end in `"CURRENT"` or `"LOCK"`. -/
def clearRemovals (files : List String) : List String :=
  files.filter (fun f => strEndsWith f ".ldb") ++
    files.filter fun f =>
      strEndsWith f ".log" && !(strEndsWith f "CURRENT" || strEndsWith f "LOCK")

/-- Control flow of `fix_extension` (`fix_onetab.py` lines 33-128): abort
with `False` and no side effect when the extension path is missing, when the
records JSON file is missing, or when it fails to parse; otherwise assemble
the state document, remove the database files when `clear_db` was requested,
and write the state file (a path alongside the tool, not in the extension
directory). Result: success flag, file-system trace in order, and the
document written (if any). -/
def fix_extension (env : Env) (clearDb : Bool) (clock : Nat → Nat) :
    Bool × List FsOp × Option StateDoc :=
  if !env.extensionExists then (false, [], none)
  else if !env.urlsJsonExists then (false, [], none)
  else
    match env.urlsData with
    | none => (false, [], none)
    | some recs =>
        let doc := fixDoc clock recs
        let removeOps :=
          if clearDb then (clearRemovals env.extensionFiles).map FsOp.removeOp
          else []
        (true, removeOps ++ [FsOp.writeOp "onetab_state.json"], some doc)

/-- Side-effect trace of the reconstructor's `main` (`fix_onetab.py` lines
130-153): run `backup_extension_data` to completion first, then
`fix_extension`. -/
def mainTrace (env : Env) (clearDb : Bool) (clock : Nat → Nat)
    (backupDir backupPath : String) : List FsOp :=
  backup_extension_data env backupDir backupPath ++
    (fix_extension env clearDb clock).2.1

/-! Concrete inputs used by counterexamples and witnesses. -/

/-- Two records in two distinct groups: the reconstructor synthesizes the
first tab of each group with intra-group index 0. -/
def recsTwoGroups : List RawRecord :=
  [{ url := "http://a", title := none, group := some "G1" }
  , { url := "http://b", title := none, group := some "G2" }]

/-- An environment whose records JSON file is missing. -/
def envNoJson : Env :=
  { extensionExists := true, extensionFiles := ["a.ldb"]
  , backupDirExists := true, urlsJsonExists := false, urlsData := some [] }

/-- An environment ready for a destructive run: one data file, a parsable
(empty) records file. -/
def envClear : Env :=
  { extensionExists := true, extensionFiles := ["a.ldb"]
  , backupDirExists := true, urlsJsonExists := true, urlsData := some [] }

/-! Helper lemmas about the grouping machinery. -/

theorem updateAssoc_keys {α : Type} (gs : List (String × List α)) (k : String) (v : α) :
    (updateAssoc gs k v).map Prod.fst =
      if k ∈ gs.map Prod.fst then gs.map Prod.fst else gs.map Prod.fst ++ [k] := by
  induction gs with
  | nil => simp [updateAssoc]
  | cons hd tl ih =>
      obtain ⟨k', vs⟩ := hd
      by_cases hk : k' = k
      · subst hk
        simp [updateAssoc]
      · simp only [updateAssoc, if_neg hk, List.map_cons, ih]
        have hne : ¬ (k = k') := fun h => hk h.symm
        by_cases hmem : k ∈ tl.map Prod.fst
        · simp [hmem, hne]
        · simp [hmem, hne]

theorem updateAssoc_of_not_mem {α : Type} (gs : List (String × List α)) (k : String)
    (v : α) (h : k ∉ gs.map Prod.fst) :
    updateAssoc gs k v = gs ++ [(k, [v])] := by
  induction gs with
  | nil => simp [updateAssoc]
  | cons hd tl ih =>
      obtain ⟨k', vs⟩ := hd
      simp only [List.map_cons, List.mem_cons] at h
      push_neg at h
      have hk : k' ≠ k := fun h' => h.1 h'.symm
      simp [updateAssoc, hk, ih h.2]

theorem updateAssoc_of_mem {α : Type} (gs : List (String × List α)) (k : String)
    (v : α) (hnd : (gs.map Prod.fst).Nodup) (h : k ∈ gs.map Prod.fst) :
    updateAssoc gs k v = gs.map fun p => if p.1 = k then (p.1, p.2 ++ [v]) else p := by
  induction gs with
  | nil => simp at h
  | cons hd tl ih =>
      obtain ⟨k', vs⟩ := hd
      simp only [List.map_cons, List.nodup_cons] at hnd
      by_cases hk : k' = k
      · subst hk
        have htl : ∀ p ∈ tl, ¬ (p.1 = k') := by
          intro p hp hpk
          exact hnd.1 (hpk ▸ List.mem_map_of_mem Prod.fst hp)
        have : tl.map (fun p => if p.1 = k' then (p.1, p.2 ++ [v]) else p) = tl.map id := by
          refine List.map_congr_left fun p hp => ?_
          simp [htl p hp]
        simp [updateAssoc, this]
      · simp only [List.map_cons, List.mem_cons] at h
        rcases h with h | h
        · exact absurd h.symm hk
        · simp [updateAssoc, hk, ih hnd.2 h]

theorem mem_foldl_firstSeen (L : List String) :
    ∀ (acc : List String) (x : String),
      x ∈ L.foldl (fun acc g => if g ∈ acc then acc else acc ++ [g]) acc ↔
        x ∈ acc ∨ x ∈ L := by
  induction L with
  | nil => simp
  | cons g L ih =>
      intro acc x
      simp only [List.foldl_cons, ih, List.mem_cons]
      by_cases hg : g ∈ acc
      · simp only [if_pos hg]
        constructor
        · rintro (h | h)
          · exact Or.inl h
          · exact Or.inr (Or.inr h)
        · rintro (h | h | h)
          · exact Or.inl h
          · exact Or.inl (h ▸ hg)
          · exact Or.inr h
      · simp only [if_neg hg, List.mem_append, List.mem_singleton]
        tauto

theorem mem_firstSeen (L : List String) (x : String) :
    x ∈ firstSeen L ↔ x ∈ L := by
  simpa [firstSeen] using mem_foldl_firstSeen L [] x

theorem nodup_foldl_firstSeen (L : List String) :
    ∀ acc : List String, acc.Nodup →
      (L.foldl (fun acc g => if g ∈ acc then acc else acc ++ [g]) acc).Nodup := by
  induction L with
  | nil => exact fun acc h => h
  | cons g L ih =>
      intro acc hacc
      simp only [List.foldl_cons]
      by_cases hg : g ∈ acc
      · simpa [if_pos hg] using ih acc hacc
      · refine ih _ ?_
        simp [if_neg hg, List.nodup_append, hacc, hg]

theorem nodup_firstSeen (L : List String) : (firstSeen L).Nodup :=
  nodup_foldl_firstSeen L [] List.nodup_nil

theorem firstSeen_concat (L : List String) (g : String) :
    firstSeen (L ++ [g]) =
      if g ∈ firstSeen L then firstSeen L else firstSeen L ++ [g] := by
  simp [firstSeen, List.foldl_append]

theorem groupByLabel_concat {α : Type} (lab : α → String) (l : List α) (e : α) :
    groupByLabel lab (l ++ [e]) = updateAssoc (groupByLabel lab l) (lab e) e := by
  simp [groupByLabel, List.foldl_append]

theorem groupByLabel_eq {α : Type} (lab : α → String) (l : List α) :
    groupByLabel lab l =
      (firstSeen (l.map lab)).map fun g => (g, l.filter fun e => lab e = g) := by
  induction l using List.reverseRecOn with
  | nil => simp [groupByLabel, firstSeen]
  | append_singleton l e ih =>
      have hkeys : ((firstSeen (l.map lab)).map
          (fun g => (g, l.filter fun e' => lab e' = g))).map Prod.fst
            = firstSeen (l.map lab) := by
        rw [List.map_map]
        have hcomp : (Prod.fst ∘ fun g => (g, l.filter fun e' => lab e' = g)) = id := rfl
        rw [hcomp, List.map_id]
      have hnd : (((firstSeen (l.map lab)).map
          (fun g => (g, l.filter fun e' => lab e' = g))).map Prod.fst).Nodup := by
        rw [hkeys]; exact nodup_firstSeen _
      rw [groupByLabel_concat, ih, List.map_append]
      simp only [List.map_cons, List.map_nil]
      rw [firstSeen_concat]
      by_cases hmem : lab e ∈ firstSeen (l.map lab)
      · have hm : lab e ∈ ((firstSeen (l.map lab)).map
            (fun g => (g, l.filter fun e' => lab e' = g))).map Prod.fst := by
          rw [hkeys]; exact hmem
        rw [if_pos hmem]
        rw [updateAssoc_of_mem _ _ _ hnd hm]
        rw [List.map_map]
        refine List.map_congr_left fun g _ => ?_
        by_cases hgk : g = lab e
        · subst hgk
          simp [Function.comp, List.filter_append]
        · have : ¬ (lab e = g) := fun h => hgk h.symm
          simp [Function.comp, hgk, List.filter_append, this]
      · have hm : lab e ∉ ((firstSeen (l.map lab)).map
            (fun g => (g, l.filter fun e' => lab e' = g))).map Prod.fst := by
          rw [hkeys]; exact hmem
        rw [if_neg hmem]
        rw [updateAssoc_of_not_mem _ _ _ hm]
        rw [List.map_append]
        have hnotin : lab e ∉ l.map lab := fun h => hmem ((mem_firstSeen _ _).mpr h)
        congr 1
        · refine List.map_congr_left fun g hg => ?_
          have hgk : ¬ (lab e = g) := by
            intro h
            exact hmem (h ▸ hg)
          simp [List.filter_append, hgk]
        · have hnil : l.filter (fun e' => lab e' = lab e) = [] := by
            rw [List.filter_eq_nil_iff]
            intro a ha hc
            simp only [decide_eq_true_eq] at hc
            exact hnotin (hc ▸ List.mem_map_of_mem lab ha)
          simp [List.filter_append, hnil]

/-- Total number of values stored across a grouping map. -/
def totalLen {α : Type} (gs : List (String × List α)) : Nat :=
  (gs.map fun p => p.2.length).sum

theorem totalLen_updateAssoc {α : Type} (gs : List (String × List α)) (k : String)
    (v : α) : totalLen (updateAssoc gs k v) = totalLen gs + 1 := by
  induction gs with
  | nil => simp [updateAssoc, totalLen]
  | cons hd tl ih =>
      obtain ⟨k', vs⟩ := hd
      by_cases hk : k' = k
      · simp only [updateAssoc, if_pos hk, totalLen, List.map_cons, List.sum_cons,
          List.length_append, List.length_singleton]
        omega
      · simp only [updateAssoc, if_neg hk, totalLen, List.map_cons, List.sum_cons] at *
        omega

theorem totalLen_groupByLabel {α : Type} (lab : α → String) (l : List α) :
    totalLen (groupByLabel lab l) = l.length := by
  induction l using List.reverseRecOn with
  | nil => simp [groupByLabel, totalLen]
  | append_singleton l e ih =>
      rw [groupByLabel_concat, totalLen_updateAssoc, ih]
      simp

theorem countP_flatMap_link (gs : List (String × List RawRecord)) :
    ((gs.flatMap fun p =>
        HtmlItem.heading p.1 :: p.2.map fun e => HtmlItem.link e.url (displayTitle e)).countP
      isLink) = totalLen gs := by
  induction gs with
  | nil => simp [totalLen]
  | cons hd tl ih =>
      obtain ⟨g, es⟩ := hd
      simp only [List.flatMap_cons, List.countP_append, List.countP_cons, ih, totalLen,
        List.map_cons, List.sum_cons]
      have hlinks : (es.map fun e => HtmlItem.link e.url (displayTitle e)).countP isLink
          = es.length := by
        induction es with
        | nil => simp
        | cons e es ihe => simp [List.countP_cons, ihe, isLink, Nat.add_comm]
      simp [isLink, hlinks, totalLen, Nat.add_comm]

theorem buildUrlGroups_fst_keys (clock : Nat → Nat) (recs : List RawRecord) :
    ∀ (gs : List (String × List Tab)) (k : Nat),
      ((recs.foldl
          (fun st e =>
            let gname := recLabel e
            let idx := (((st.1.find? fun p => p.1 = gname).map fun p => p.2.length).getD 0)
            (updateAssoc st.1 gname (mkTab clock st.2 idx e), st.2 + 1))
          (gs, k)).1).map Prod.fst =
        (recs.map recLabel).foldl
          (fun acc g => if g ∈ acc then acc else acc ++ [g]) (gs.map Prod.fst) := by
  induction recs with
  | nil => intro gs k; rfl
  | cons e recs ih =>
      intro gs k
      simp only [List.foldl_cons, List.map_cons]
      rw [ih]
      rw [updateAssoc_keys]

theorem buildUrlGroups_keys (clock : Nat → Nat) (recs : List RawRecord) :
    ((buildUrlGroups clock 0 recs).1).map Prod.fst = firstSeen (recs.map recLabel) := by
  have h := buildUrlGroups_fst_keys clock recs [] 0
  simpa [buildUrlGroups, firstSeen] using h

theorem mkGroups_names (clock : Nat → Nat) :
    ∀ (k idx : Nat) (gs : List (String × List Tab)),
      (mkGroups clock k idx gs).map TabGroup.name =
        gs.map fun p => if p.1 = "Unknown Group" then "" else p.1 := by
  intro k idx gs
  induction gs generalizing k idx with
  | nil => rfl
  | cons hd tl ih =>
      obtain ⟨g, tabs⟩ := hd
      simp [mkGroups, ih]

theorem mergeFold_nodup (urls : List String) :
    ∀ acc : List Record, (acc.map Record.url).Nodup →
      ((urls.foldl
          (fun acc u =>
            if u ∈ acc.map Record.url then acc
            else acc ++ [{ url := u, title := "", group := "Unknown Group" }])
          acc).map Record.url).Nodup := by
  induction urls with
  | nil => exact fun acc h => h
  | cons u urls ih =>
      intro acc hacc
      simp only [List.foldl_cons]
      by_cases hu : u ∈ acc.map Record.url
      · rw [if_pos hu]
        exact ih acc hacc
      · rw [if_neg hu]
        refine ih _ ?_
        simp [List.nodup_append, hacc, hu]

theorem backup_no_mutation (env : Env) (backupDir backupPath : String) :
    ∀ op ∈ backup_extension_data env backupDir backupPath, mutatesFile op = false := by
  intro op hop
  simp only [backup_extension_data, List.mem_append] at hop
  rcases hop with (h | h) | h
  · split at h
    · simp at h
    · simp only [List.mem_singleton] at h
      subst h; rfl
  · simp only [List.mem_singleton] at h
    subst h; rfl
  · split at h
    · simp only [List.mem_map] at h
      obtain ⟨f, _, hf⟩ := h
      subst hf; rfl
    · simp at h

theorem isPrefChars_total :
    ∀ (l p q : List Char), isPrefChars p l = true → isPrefChars q l = true →
      isPrefChars p q = true ∨ isPrefChars q p = true := by
  intro l
  induction l with
  | nil =>
      intro p q hp hq
      cases p with
      | nil => exact Or.inl rfl
      | cons a as => simp [isPrefChars] at hp
  | cons c cs ih =>
      intro p q hp hq
      cases p with
      | nil => exact Or.inl rfl
      | cons a as =>
          cases q with
          | nil => exact Or.inr rfl
          | cons b bs =>
              simp only [isPrefChars, Bool.and_eq_true, decide_eq_true_eq] at hp hq ⊢
              rcases ih as bs hp.2 hq.2 with h | h
              · exact Or.inl ⟨hp.1.trans hq.1.symm, h⟩
              · exact Or.inr ⟨hq.1.trans hp.1.symm, h⟩

theorem strEndsWith_total (s suf1 suf2 : String)
    (h1 : strEndsWith s suf1 = true) (h2 : strEndsWith s suf2 = true) :
    isPrefChars suf1.data.reverse suf2.data.reverse = true ∨
      isPrefChars suf2.data.reverse suf1.data.reverse = true :=
  isPrefChars_total s.data.reverse _ _ h1 h2

theorem ldb_not_control (f : String) (h : strEndsWith f ".ldb" = true) :
    strEndsWith f "CURRENT" = false ∧ strEndsWith f "LOCK" = false := by
  constructor
  · by_contra hc
    rw [Bool.not_eq_false] at hc
    rcases strEndsWith_total f ".ldb" "CURRENT" h hc with h' | h' <;> exact absurd h' (by decide)
  · by_contra hc
    rw [Bool.not_eq_false] at hc
    rcases strEndsWith_total f ".ldb" "LOCK" h hc with h' | h' <;> exact absurd h' (by decide)

theorem log_not_control (f : String) (h : strEndsWith f ".log" = true) :
    strEndsWith f "CURRENT" = false ∧ strEndsWith f "LOCK" = false := by
  constructor
  · by_contra hc
    rw [Bool.not_eq_false] at hc
    rcases strEndsWith_total f ".log" "CURRENT" h hc with h' | h' <;> exact absurd h' (by decide)
  · by_contra hc
    rw [Bool.not_eq_false] at hc
    rcases strEndsWith_total f ".log" "LOCK" h hc with h' | h' <;> exact absurd h' (by decide)

theorem toJValList_eq_map (es : List FlatVal) :
    toJValList es = es.map FlatVal.toJVal := by
  induction es with
  | nil => rfl
  | cons v vs ih => simp [toJValList, ih]

theorem toJVal_ne_obj (v : FlatVal) (gf : List (String × JVal)) :
    v.toJVal ≠ .obj gf := by
  cases v <;> simp [FlatVal.toJVal]

theorem groupRecordsOf_of_ne_obj (g : JVal) (h : ∀ gf, g ≠ .obj gf) :
    groupRecordsOf g = [] := by
  cases g with
  | obj gf => exact absurd rfl (h gf)
  | prim s => rfl
  | str s => rfl
  | arr es => rfl

theorem iterElems_toJVal_ne_obj (v : FlatVal) :
    ∀ g ∈ iterElems (some v.toJVal), ∀ gf, g ≠ .obj gf := by
  intro g hg gf
  cases v with
  | prim s => simp [FlatVal.toJVal, iterElems] at hg
  | str s =>
      simp only [FlatVal.toJVal, iterElems, List.mem_map] at hg
      obtain ⟨c, _, hc⟩ := hg
      subst hc; simp
  | arr es =>
      simp only [FlatVal.toJVal, iterElems, toJValList_eq_map, List.mem_map] at hg
      obtain ⟨e, _, he⟩ := hg
      subst he; exact toJVal_ne_obj e gf

theorem lookupJ_fragToJVal (d : List (String × FlatVal)) (k : String) :
    lookupJ (fragToJVal d) k =
      ((d.find? fun p => p.1 = k).map fun p => p.2.toJVal) := by
  induction d with
  | nil => rfl
  | cons p d ih =>
      by_cases hk : p.1 = k
      · simp [lookupJ, fragToJVal, List.find?, hk]
      · simpa [lookupJ, fragToJVal, List.find?, hk] using ih

theorem fragmentRecords_flat (docs : List (List (String × FlatVal))) :
    fragmentRecords (docs.map fragToJVal) = [] := by
  unfold fragmentRecords
  rw [List.flatMap_eq_nil_iff]
  intro d hd
  obtain ⟨d0, _, rfl⟩ := List.mem_map.mp hd
  rw [lookupJ_fragToJVal]
  cases hfind : d0.find? fun p => p.1 = "tabGroups" with
  | none => simp [iterElems]
  | some p =>
      rw [List.flatMap_eq_nil_iff]
      intro g hg
      exact groupRecordsOf_of_ne_obj g (iterElems_toJVal_ne_obj p.2 g hg)

/-! Claim theorems. -/

/-- C1: for every input, the scanner's merged record list contains no two
records with identical url string. The extraction regular expression at
line 49 admits no decodable fragment holding a nested object (see
`FlatVal`), so the structural phase of lines 78-87 contributes no records
on any reachable input (`fragmentRecords_flat`), and every merged record
comes from the bare-URL-regex phase, whose membership checks at lines 67
and 91 deduplicate by exact url string. -/
theorem c1_merged_urls_nodup (files : List ScanFile) :
    ((scanAllUrls files).map Record.url).Nodup := by
  unfold scanAllUrls mergeUrls
  rw [fragmentRecords_flat]
  exact mergeFold_nodup _ [] (by simp)

/-- C2: in the reconstructor's main flow, the whole trace is the backup trace
followed by the `fix_extension` trace, and the portion of the trace up to the
completion of the backup step contains no file deletion: every destructive
removal happens only after the backup copy finished. -/
theorem c2_backup_precedes_removal (env : Env) (clearDb : Bool) (clock : Nat → Nat)
    (backupDir backupPath : String) :
    mainTrace env clearDb clock backupDir backupPath =
        backup_extension_data env backupDir backupPath ++
          (fix_extension env clearDb clock).2.1 ∧
      ∀ op ∈ (mainTrace env clearDb clock backupDir backupPath).take
          (backup_extension_data env backupDir backupPath).length,
        mutatesFile op = false := by
  refine ⟨rfl, fun op hop => ?_⟩
  unfold mainTrace at hop
  rw [List.take_left] at hop
  exact backup_no_mutation env backupDir backupPath op hop

/-- C2, witness at a concrete destructive run: the trace is the backup of
`a.ldb` followed by its removal and the state write, and the copy operation
inside the backup prefix is not a removal. -/
theorem c2_backup_precedes_removal_witness :
    mainTrace envClear true (fun _ => 5) "bd" "bp" =
        backup_extension_data envClear "bd" "bp" ++
          (fix_extension envClear true (fun _ => 5)).2.1 ∧
      mutatesFile (FsOp.copyOp "a.ldb" "bp") = false :=
  ⟨(c2_backup_precedes_removal envClear true (fun _ => 5) "bd" "bp").1,
    (c2_backup_precedes_removal envClear true (fun _ => 5) "bd" "bp").2
      (FsOp.copyOp "a.ldb" "bp") (by decide)⟩

/-- C3, code bug: with both tab-loop `time.time()` readings landing in the
same millisecond (clock constantly 5), the two records in distinct groups
both receive the tab id `"tab_5_0"` — the intra-group index restarts at 0
for every group and the delay meant to separate ids runs only in the later
group loop, so synthesized ids are not pairwise distinct. -/
theorem c3_id_collision :
    allIds (fixDoc (fun _ => 5) recsTwoGroups) =
        ["group_5_0", "tab_5_0", "group_5_1", "tab_5_0"] ∧
      ¬ (allIds (fixDoc (fun _ => 5) recsTwoGroups)).Nodup := by
  refine ⟨by decide, by decide⟩

/-- C4: in destructive mode the removed files are exactly the files of the
target directory matching `*.ldb` or `*.log` whose name does not end in
`CURRENT` or `LOCK`; since a name ending in `.ldb` or `.log` can never end
in `CURRENT` or `LOCK`, the control-file exception is vacuous and the code's
removal set coincides with this description. -/
theorem c4_clear_db_removals (files : List String) (f : String) :
    f ∈ clearRemovals files ↔
      f ∈ files ∧ (strEndsWith f ".ldb" = true ∨ strEndsWith f ".log" = true) ∧
        ¬ (strEndsWith f "CURRENT" = true ∨ strEndsWith f "LOCK" = true) := by
  unfold clearRemovals
  rw [List.mem_append, List.mem_filter, List.mem_filter]
  constructor
  · rintro (⟨hf, hldb⟩ | ⟨hf, hlog⟩)
    · obtain ⟨hc, hk⟩ := ldb_not_control f hldb
      exact ⟨hf, Or.inl hldb, by simp [hc, hk]⟩
    · rw [Bool.and_eq_true] at hlog
      obtain ⟨hc, hk⟩ := log_not_control f hlog.1
      exact ⟨hf, Or.inr hlog.1, by simp [hc, hk]⟩
  · rintro ⟨hf, hpat, _⟩
    rcases hpat with hldb | hlog
    · exact Or.inl ⟨hf, hldb⟩
    · refine Or.inr ⟨hf, ?_⟩
      obtain ⟨hc, hk⟩ := log_not_control f hlog
      simp [hlog, hc, hk]

/-- C5, code bug: on the missing-directory and no-files failure paths the
scanner returns a bare boolean instead of the boolean/tuple pair, so the
caller's tuple unpacking of the result fails (Python raises `TypeError`,
modelled by `unpackScanResult` returning `none`) instead of signalling the
failure through the return value. -/
theorem c5_bare_return_breaks_unpacking :
    (∀ files : List ScanFile,
        unpackScanResult (extract_onetab_data_from_files false files) = none) ∧
      unpackScanResult (extract_onetab_data_from_files true []) = none :=
  ⟨fun _ => rfl, rfl⟩

/-- C6, counterexample: a structurally decoded group without a `name` key is
attributed to `"Unnamed Group"`, and the reconstructor groups a record
without a `group` key under `"Unnamed Group"` — not under the claimed
placeholder `"Unknown Group"`. -/
theorem c6_default_group_counterexample :
    (structuralRecords
          [{ tabGroups :=
              [{ name := none,
                 tabs := some [{ url := some "http://a", title := none }] }] }]).map
        Record.group = ["Unnamed Group"] ∧
      recLabel { url := "http://a", title := none, group := none } = "Unnamed Group" ∧
      ("Unnamed Group" : String) ≠ "Unknown Group" :=
  ⟨rfl, rfl, by decide⟩

/-- C6, amended: when the `group`/`name` field is absent, both components
default to `"Unnamed Group"`: the scanner attributes structurally decoded
tabs of a nameless group to `"Unnamed Group"`, and the reconstructor groups
a record lacking a `group` key under `"Unnamed Group"`; the placeholder
`"Unknown Group"` is used only for bare-URL-regex records. -/
theorem c6_default_group_amended :
    (∀ tabs : Option (List JTab),
        scanGroupLabel { name := none, tabs := tabs } = "Unnamed Group") ∧
      (∀ (u : String) (t : Option String),
        recLabel { url := u, title := t, group := none } = "Unnamed Group") :=
  ⟨fun _ => rfl, fun _ _ => rfl⟩

/-- C7: for every clock and record list, the display names of the
reconstructed tab groups are, in order, the first-seen group labels of the
records with the placeholder `"Unknown Group"` rewritten to the empty
string and every other label kept verbatim. -/
theorem c7_unknown_group_renamed (clock : Nat → Nat) (recs : List RawRecord) :
    (fixDoc clock recs).tabGroups.map TabGroup.name =
      (firstSeen (recs.map recLabel)).map
        fun g => if g = "Unknown Group" then "" else g := by
  show (mkGroups clock _ 0 (buildUrlGroups clock 0 recs).1).map TabGroup.name = _
  rw [mkGroups_names]
  have hmm : (buildUrlGroups clock 0 recs).1.map
        (fun p => if p.1 = "Unknown Group" then "" else p.1) =
      ((buildUrlGroups clock 0 recs).1.map Prod.fst).map
        (fun g => if g = "Unknown Group" then "" else g) := by
    rw [List.map_map]
    rfl
  rw [hmm, buildUrlGroups_keys]

/-- C8: the HTML body built by the export lists, in first-seen order of the
records' group labels, one heading per distinct label followed by that
group's records in input order, and it holds exactly one link entry per
input record. -/
theorem c8_html_grouping (entries : List RawRecord) :
    export_to_html entries =
        ((firstSeen (entries.map exLabel)).map
            fun g => (g, entries.filter fun e => exLabel e = g)).flatMap
          (fun p => HtmlItem.heading p.1 ::
            p.2.map fun e => HtmlItem.link e.url (displayTitle e)) ∧
      (export_to_html entries).countP isLink = entries.length := by
  constructor
  · unfold export_to_html
    rw [groupByLabel_eq]
  · unfold export_to_html
    rw [countP_flatMap_link, totalLen_groupByLabel]

/-- C9: when the records JSON file is missing or fails to parse,
`fix_extension` returns the failure flag with an empty side-effect trace and
no state document: nothing is removed and nothing is written. -/
theorem c9_abort_before_mutation (env : Env) (clearDb : Bool) (clock : Nat → Nat)
    (h : env.urlsJsonExists = false ∨ env.urlsData = none) :
    fix_extension env clearDb clock = (false, [], none) := by
  rcases h with h | h <;>
    cases he : env.extensionExists <;> cases hj : env.urlsJsonExists <;>
      simp_all [fix_extension]

/-- C9, witness at a concrete environment whose records JSON file is
missing. -/
theorem c9_abort_before_mutation_witness :
    fix_extension envNoJson true (fun _ => 5) = (false, [], none) :=
  c9_abort_before_mutation envNoJson true (fun _ => 5) (Or.inl rfl)

/-- C10: a record lacking a `title` key yields a tab titled with the
record's url; a record whose `title` key is present — even with the empty
string as value — keeps that value as the tab's title. -/
theorem c10_title_defaults_to_url (clock : Nat → Nat) (k idx : Nat) (u : String)
    (g : Option String) (t : String) :
    (mkTab clock k idx { url := u, title := none, group := g }).title = u ∧
      (mkTab clock k idx { url := u, title := some t, group := g }).title = t :=
  ⟨rfl, rfl⟩

end OneTab
